import Mathlib

/-!
Verification of the recurrence resolution and projection engine of the
calendar application.

The development shallowly embeds:
* `shouldShowOnDate` from `utils/recurrence.ts` (the occurrence predicate),
* the `upcomingEvents` aggregator from `app/(tabs)/summary.tsx`,
* the `eventMarks` window projector from `app/(tabs)/index.tsx`.

Dates travel as strings (`YYYY-MM-DD`); the `date-fns` library calls used by
the source (`parseISO`, `getDay`, `getDate`, `getMonth`, `addDays`,
`differenceInCalendarWeeks` with `weekStartsOn: 1`) are modelled over a
`Date` record of year/month/day together with the standard civil-calendar
day-numbering (days relative to 1970-01-01).  `parseISO` is modelled at
calendar-date precision: it accepts exactly the zero-padded `YYYY-MM-DD`
form and validates month and day ranges (including leap years), returning
`none` otherwise — matching the library's behaviour on the date-only strings
this application stores.  JavaScript string comparison (`<`, `>`,
`localeCompare` on ASCII date/time strings) is modelled by Lean's
lexicographic order on `String`.
-/

namespace CalendarApp

/-- Recurrence kinds of an event, mirroring the TypeScript union
`'none' | 'daily' | 'weekly' | 'biweekly' | 'monthly' | 'yearly'`. -/
inductive Recurrence where
  | none
  | daily
  | weekly
  | biweekly
  | monthly
  | yearly
deriving DecidableEq, Repr

/-- Events as stored in the `eventos` table (interface `Evento`); the
`recurrence` and `exception_dates` columns are nullable, mirrored by
`Option`.  Descriptive fields are opaque payload. -/
structure Evento where
  id : String
  titulo : String
  descripcion : String
  fecha : String
  es_todo_el_dia : Bool
  hora_inicio : Option String
  hora_fin : Option String
  recurrence : Option Recurrence
  exception_dates : Option (List String)
deriving DecidableEq, Repr

/-- A parsed calendar date (what a valid `YYYY-MM-DD` string denotes). -/
structure Date where
  year : Int
  month : Int
  day : Int
deriving DecidableEq, Repr

/-- Leap-year test of the proleptic Gregorian calendar. -/
def isLeap (y : Int) : Bool :=
  y.emod 4 = 0 ∧ (y.emod 100 ≠ 0 ∨ y.emod 400 = 0)

/-- Number of days in a month (1-12) of year `y`. -/
def daysInMonth (y m : Int) : Int :=
  if m = 2 then (if isLeap y then 29 else 28)
  else if m = 4 ∨ m = 6 ∨ m = 9 ∨ m = 11 then 30
  else 31

/-- Value of a decimal digit character. -/
def digitVal (c : Char) : Int :=
  (c.toNat : Int) - 48

/-- Model of date-fns `parseISO` restricted to calendar-date precision:
accepts exactly the ten-character `YYYY-MM-DD` form with a valid month and
day (leap years respected), otherwise fails.  A failed parse corresponds to
the library's `Invalid Date` (caught by the source's `isNaN` guard). -/
def parseISO (s : String) : Option Date :=
  match s.data with
  | [y1, y2, y3, y4, h1, m1, m2, h2, d1, d2] =>
    if h1 = '-' ∧ h2 = '-' ∧ y1.isDigit ∧ y2.isDigit ∧ y3.isDigit ∧ y4.isDigit ∧
        m1.isDigit ∧ m2.isDigit ∧ d1.isDigit ∧ d2.isDigit then
      let y := digitVal y1 * 1000 + digitVal y2 * 100 + digitVal y3 * 10 + digitVal y4
      let m := digitVal m1 * 10 + digitVal m2
      let d := digitVal d1 * 10 + digitVal d2
      if 1 ≤ m ∧ m ≤ 12 ∧ 1 ≤ d ∧ d ≤ daysInMonth y m then
        some ⟨y, m, d⟩
      else
        Option.none
    else
      Option.none
  | _ => Option.none

/-- Day number of a civil date, counted from 1970-01-01 (the classical
era-based algorithm, using truncating division as in the host language). -/
def toDays (dt : Date) : Int :=
  let y := if dt.month ≤ 2 then dt.year - 1 else dt.year
  let era := (if 0 ≤ y then y else y - 399).tdiv 400
  let yoe := y - era * 400
  let mp := (dt.month + 9).tmod 12
  let doy := (153 * mp + 2).tdiv 5 + dt.day - 1
  let doe := yoe * 365 + yoe.tdiv 4 - yoe.tdiv 100 + doy
  era * 146097 + doe - 719468

/-- Inverse of `toDays`: the civil date of a day number. -/
def fromDays (z0 : Int) : Date :=
  let z := z0 + 719468
  let era := (if 0 ≤ z then z else z - 146096).tdiv 146097
  let doe := z - era * 146097
  let yoe := (doe - doe.tdiv 1460 + doe.tdiv 36524 - doe.tdiv 146096).tdiv 365
  let y := yoe + era * 400
  let doy := doe - (365 * yoe + yoe.tdiv 4 - yoe.tdiv 100)
  let mp := (5 * doy + 2).tdiv 153
  let d := doy - (153 * mp + 2).tdiv 5 + 1
  let m := mp + (if mp < 10 then 3 else -9)
  ⟨y + (if m ≤ 2 then 1 else 0), m, d⟩

/-- Model of date-fns `addDays` (calendar-day addition, as also produced by
the source's `d.setDate(d.getDate() + i)` idiom). -/
def addDays (dt : Date) (n : Int) : Date :=
  fromDays (toDays dt + n)

/-- Model of JavaScript `getDay` (0 = Sunday … 6 = Saturday); 1970-01-01 was
a Thursday (4). -/
def getDay (dt : Date) : Int :=
  (toDays dt + 4).emod 7

/-- Model of date-fns `getDate`: the day of the month. -/
def getDate (dt : Date) : Int :=
  dt.day

/-- Model of date-fns `getMonth`: the zero-based month. -/
def getMonth (dt : Date) : Int :=
  dt.month - 1

/-- Day number of the start of the week containing `dt` for the week-start
convention `weekStartsOn` (date-fns `startOfWeek`). -/
def startOfWeekDays (dt : Date) (weekStartsOn : Int) : Int :=
  let day := getDay dt
  let diff := (if day < weekStartsOn then 7 else 0) + day - weekStartsOn
  toDays dt - diff

/-- Model of date-fns `differenceInCalendarWeeks`: the number of calendar
weeks between the week-starts of the two dates (an exact multiple of seven
days, so the truncating division is exact). -/
def differenceInCalendarWeeks (dl dr : Date) (weekStartsOn : Int) : Int :=
  (startOfWeekDays dl weekStartsOn - startOfWeekDays dr weekStartsOn).tdiv 7

/-- Model of the source's exception test
`event.exception_dates && event.exception_dates.includes(targetDateStr)`. -/
def hasException (event : Evento) (d : String) : Bool :=
  match event.exception_dates with
  | some l => l.contains d
  | Option.none => false

/-- Shallow embedding of `shouldShowOnDate` from `utils/recurrence.ts`:
decides whether a (possibly recurring) event appears on `targetDateStr`.
The source's `try`/`catch` and `isNaN` guards are represented by the
`Option`-valued `parseISO`. -/
def shouldShowOnDate (event : Evento) (targetDateStr : String) : Bool :=
  -- Guard against missing/invalid dates
  if event.fecha = "" ∨ targetDateStr = "" then false
  -- Check exception dates — skip this date if it's excluded
  else if hasException event targetDateStr then false
  -- Exact match — always show
  else if event.fecha = targetDateStr then true
  else
    let recurrence := event.recurrence.getD Recurrence.none
    if recurrence = Recurrence.none then false
    else
      match parseISO event.fecha, parseISO targetDateStr with
      | some origin, some target =>
        -- Only show on dates ON or AFTER the origin
        if toDays target < toDays origin then false
        else
          match recurrence with
          | Recurrence.daily => true
          | Recurrence.weekly => getDay target = getDay origin
          | Recurrence.biweekly =>
            if getDay target ≠ getDay origin then false
            else (differenceInCalendarWeeks target origin 1).tmod 2 = 0
          | Recurrence.monthly => getDate target = getDate origin
          | Recurrence.yearly =>
            getDate target = getDate origin ∧ getMonth target = getMonth origin
          | Recurrence.none => false
      | _, _ => false

/-- Model of `format(d, 'yyyy-MM-dd')`: a number rendered in decimal and
left-padded with zeros to the given width. -/
def padNum (n : Nat) (w : Nat) : String :=
  let s := toString n
  String.mk (List.replicate (w - s.length) '0') ++ s

/-- Render a date as its canonical `YYYY-MM-DD` string (date-fns
`format(d, 'yyyy-MM-dd')`); years are four-digit in every reachable use. -/
def fmtDate (dt : Date) : String :=
  padNum dt.year.toNat 4 ++ "-" ++ padNum dt.month.toNat 2 ++ "-" ++ padNum dt.day.toNat 2

/-- Lexicographic comparison of character lists by code point, modelling
JavaScript's code-unit string comparison (identical on the ASCII
date/time strings this application compares). -/
def charListLt : List Char → List Char → Bool
  | _, [] => false
  | [], _ :: _ => true
  | a :: as, b :: bs =>
    if a.toNat < b.toNat then true
    else if b.toNat < a.toNat then false
    else charListLt as bs

/-- Model of the JavaScript string comparison `a < b` (and of
`a.localeCompare(b) < 0` on the ASCII strings involved). -/
def jsStrLt (a b : String) : Bool :=
  charListLt a.data b.data

/-- Model of the JavaScript string comparison `a <= b`
(`a.localeCompare(b) <= 0`). -/
def jsStrLe (a b : String) : Bool :=
  !jsStrLt b a

/-- A projected occurrence: the spread object `{ ...evt, _projectedDate }`
pushed by the aggregator in `summary.tsx`. -/
structure ProjEvento where
  ev : Evento
  projectedDate : String
deriving DecidableEq, Repr

/-- One date group `{ date, label, events }` of the upcoming list; the
`label` field is a locale-rendered copy of `date` and is presentational
only, so it is not modelled. -/
structure DayGroup where
  date : String
  events : List ProjEvento
deriving DecidableEq, Repr

/-- Sort key for the start time: `a.hora_inicio ?? ''`. -/
def horaKey (p : ProjEvento) : String :=
  p.ev.hora_inicio.getD ""

/-- Comparator of the aggregator's sort, as a relation: ascending by
projected date (`localeCompare`), then by `hora_inicio ?? ''`. -/
def projLe (a b : ProjEvento) : Prop :=
  jsStrLt a.projectedDate b.projectedDate = true ∨
    (a.projectedDate = b.projectedDate ∧ jsStrLe (horaKey a) (horaKey b) = true)

instance : DecidableRel projLe := fun a b =>
  inferInstanceAs (Decidable (jsStrLt a.projectedDate b.projectedDate = true ∨
    (a.projectedDate = b.projectedDate ∧ jsStrLe (horaKey a) (horaKey b) = true)))

theorem charToNat_inj {a b : Char} (h : a.toNat = b.toNat) : a = b :=
  Char.ext (UInt32.toNat.inj h)

theorem charListLt_asymm :
    ∀ {a b : List Char}, charListLt a b = true → charListLt b a = false
  | _ :: _, [], h => by simp [charListLt] at h
  | [], _ :: _, _ => by simp [charListLt]
  | a :: as, b :: bs, h => by
    simp only [charListLt] at h ⊢
    by_cases h1 : a.toNat < b.toNat
    · have h2 : ¬ b.toNat < a.toNat := by omega
      simp [h1, h2]
    · by_cases h2 : b.toNat < a.toNat
      · simp [h1, h2] at h
      · simp only [h1, h2, if_neg, if_false] at h ⊢
        exact charListLt_asymm h

theorem charListLt_trans :
    ∀ {a b c : List Char}, charListLt a b = true → charListLt b c = true →
      charListLt a c = true
  | _, _, [], _, h2 => by cases h : charListLt _ [] <;> simp [charListLt] at h2
  | [], b, _ :: _, _, _ => by simp [charListLt]
  | _ :: _, [], _, h1, _ => by simp [charListLt] at h1
  | a :: as, b :: bs, c :: cs, h1, h2 => by
    simp only [charListLt] at h1 h2 ⊢
    by_cases hab1 : a.toNat < b.toNat <;> by_cases hbc1 : b.toNat < c.toNat
    · have : a.toNat < c.toNat := by omega
      simp [this]
    · by_cases hbc2 : c.toNat < b.toNat
      · simp [hab1, hbc1, hbc2] at h2
      · have hbc : b.toNat = c.toNat := by omega
        have : a.toNat < c.toNat := by omega
        simp [this]
    · by_cases hab2 : b.toNat < a.toNat
      · simp [hab1, hab2] at h1
      · have : a.toNat < c.toNat := by omega
        simp [this]
    · by_cases hab2 : b.toNat < a.toNat
      · simp [hab1, hab2] at h1
      · by_cases hbc2 : c.toNat < b.toNat
        · simp [hbc1, hbc2] at h2
        · have hac1 : ¬ a.toNat < c.toNat := by omega
          have hac2 : ¬ c.toNat < a.toNat := by omega
          simp only [hab1, hab2, hbc1, hbc2, hac1, hac2, if_neg, if_false] at h1 h2 ⊢
          exact charListLt_trans h1 h2

theorem charListLt_connex :
    ∀ {a b : List Char}, charListLt a b = false → charListLt b a = false → a = b
  | [], [], _, _ => rfl
  | _ :: _, [], _, h2 => by simp [charListLt] at h2
  | [], _ :: _, h1, _ => by simp [charListLt] at h1
  | a :: as, b :: bs, h1, h2 => by
    simp only [charListLt] at h1 h2
    by_cases hab1 : a.toNat < b.toNat
    · simp [hab1] at h1
    · by_cases hab2 : b.toNat < a.toNat
      · simp [hab1, hab2] at h2
      · have hab : a.toNat = b.toNat := by omega
        simp only [hab1, hab2, if_neg, if_false] at h1 h2
        rw [charToNat_inj hab, charListLt_connex h1 h2]

theorem jsStrLt_trans {a b c : String} (h1 : jsStrLt a b = true)
    (h2 : jsStrLt b c = true) : jsStrLt a c = true :=
  charListLt_trans h1 h2

theorem jsStrLt_asymm {a b : String} (h : jsStrLt a b = true) :
    jsStrLt b a = false :=
  charListLt_asymm h

theorem jsStrLt_connex {a b : String} (h1 : jsStrLt a b = false)
    (h2 : jsStrLt b a = false) : a = b := by
  cases a; cases b
  exact congrArg String.mk (charListLt_connex h1 h2)

theorem jsStrLt_irrefl (a : String) : jsStrLt a a = false := by
  cases h : jsStrLt a a
  · rfl
  · exact absurd (jsStrLt_asymm h) (by simp [h])

instance : IsTotal ProjEvento projLe where
  total a b := by
    cases h1 : jsStrLt a.projectedDate b.projectedDate
    · cases h2 : jsStrLt b.projectedDate a.projectedDate
      · have he := jsStrLt_connex h1 h2
        cases h3 : jsStrLt (horaKey b) (horaKey a)
        · exact Or.inl (Or.inr ⟨he, by simp [jsStrLe, h3]⟩)
        · exact Or.inr (Or.inr ⟨he.symm, by simp [jsStrLe, jsStrLt_asymm h3]⟩)
      · exact Or.inr (Or.inl h2)
    · exact Or.inl (Or.inl h1)

instance : IsTrans ProjEvento projLe where
  trans a b c hab hbc := by
    unfold projLe at *
    rcases hab with h1 | ⟨h1, h1'⟩ <;> rcases hbc with h2 | ⟨h2, h2'⟩
    · exact Or.inl (jsStrLt_trans h1 h2)
    · exact Or.inl (h2 ▸ h1)
    · exact Or.inl (h1 ▸ h2)
    · refine Or.inr ⟨h1.trans h2, ?_⟩
      simp only [jsStrLe, Bool.not_eq_true'] at h1' h2' ⊢
      cases h4 : jsStrLt (horaKey b) (horaKey c)
      · have hbc := jsStrLt_connex h4 h2'
        rw [← hbc]
        exact h1'
      · cases h3 : jsStrLt (horaKey c) (horaKey a)
        · rfl
        · exact absurd (jsStrLt_trans h4 h3) (by simp [h1'])

/-- Paso A + Paso B of the `upcomingEvents` aggregator in `summary.tsx`:
single (non-recurring) events with a future `fecha`, followed by day-by-day
projection of recurring events over the lookahead window.  The screen fixes
`today = format(new Date(), 'yyyy-MM-dd')` and `lookAheadDays = 30`; both
are parameters here, with `today` given as the parsed date it is formatted
from. -/
def projectUpcoming (events : List Evento) (today : Date) (lookAheadDays : Nat) :
    List ProjEvento :=
  let todayStr := fmtDate today
  let singles :=
    (events.filter fun e =>
        decide (e.recurrence.getD Recurrence.none = Recurrence.none) &&
          jsStrLt todayStr e.fecha).map
      fun e => { ev := e, projectedDate := e.fecha }
  let recurringEvents :=
    events.filter fun e => decide (e.recurrence.getD Recurrence.none ≠ Recurrence.none)
  let recProj :=
    (List.range' 1 lookAheadDays).flatMap fun (i : Nat) =>
      let dateStr := fmtDate (addDays today (i : Int))
      (recurringEvents.filter fun e => shouldShowOnDate e dateStr).map
        fun e => { ev := e, projectedDate := dateStr }
  singles ++ recProj

/-- Grouping loop of the aggregator: fold the date-sorted projections into
groups of consecutive equal `_projectedDate` (the `currentDate` loop in
`summary.tsx`), preserving order. -/
def groupByDate : List ProjEvento → List DayGroup
  | [] => []
  | p :: ps =>
    match groupByDate ps with
    | [] => [{ date := p.projectedDate, events := [p] }]
    | g :: gs =>
      if p.projectedDate = g.date then
        { date := g.date, events := p :: g.events } :: gs
      else
        { date := p.projectedDate, events := [p] } :: g :: gs

/-- Shallow embedding of the `upcomingEvents` aggregator of `summary.tsx`:
project, sort by `(projectedDate, hora_inicio ?? '')`, group consecutive
equal dates.  The JavaScript `Array.prototype.sort` is stable and the
comparator is a total preorder, so any stable sort — here insertion sort —
produces the same list. -/
def upcomingEvents (events : List Evento) (today : Date) (lookAheadDays : Nat) :
    List DayGroup :=
  groupByDate (List.insertionSort projLe (projectUpcoming events today lookAheadDays))

/-- Shallow embedding of the `eventMarks` window projector of
`index.tsx`, parametrised by the range (the screen instantiates
`rangeStart = addDays(today, -45)`, `rangeLengthDays = 90`).  The result
is the list of marked date strings: the record it models stores
`{ marked: true, ... }` exactly for the keys listed here, and no entry
otherwise. -/
def eventMarks (events : List Evento) (rangeStart : Date) (rangeLengthDays : Nat) :
    List String :=
  ((List.range rangeLengthDays).map fun (i : Nat) =>
      fmtDate (addDays rangeStart (i : Int))).filter
    fun dateStr => events.any fun evt => shouldShowOnDate evt dateStr

/-! Concrete inputs used by counterexamples and witnesses. -/

/-- Reference day 2024-01-01 (a Monday) used as `today` in concrete runs. -/
def day0 : Date := ⟨2024, 1, 1⟩

/-- A biweekly event anchored at Monday 2024-01-01 (spec §8's example). -/
def bwEvent : Evento :=
  ⟨"bw", "t", "", "2024-01-01", true, Option.none, Option.none,
    some Recurrence.biweekly, Option.none⟩

/-- A monthly event anchored at 2024-01-31 (spec §8's example). -/
def moEvent : Evento :=
  ⟨"mo", "t", "", "2024-01-31", true, Option.none, Option.none,
    some Recurrence.monthly, Option.none⟩

/-- A weekly event whose Monday 2024-01-08 occurrence is excepted. -/
def wkEvent : Evento :=
  ⟨"wk", "t", "", "2024-01-01", true, Option.none, Option.none,
    some Recurrence.weekly, some ["2024-01-08"]⟩

/-- A non-recurring event listing its own origin date as an exception. -/
def exOriginEvent : Evento :=
  ⟨"ex", "t", "", "2024-01-05", true, Option.none, Option.none,
    Option.none, some ["2024-01-05"]⟩

/-- An event whose `fecha` is a corrupt (unparsable) date string. -/
def corruptEvent : Evento :=
  ⟨"bad", "t", "", "banana", true, Option.none, Option.none,
    some Recurrence.daily, Option.none⟩

/-- A non-recurring event listing its own future origin date as an
exception (exercises Paso A of the aggregator). -/
def exFutureEvent : Evento :=
  ⟨"exf", "t", "", "2024-01-10", true, Option.none, Option.none,
    Option.none, some ["2024-01-10"]⟩

/-- A non-recurring event dated years beyond any 30-day lookahead. -/
def farEvent : Evento :=
  ⟨"far", "t", "", "2031-01-01", true, Option.none, Option.none,
    some Recurrence.none, Option.none⟩

/-- A daily event anchored at 2024-01-01. -/
def dailyEvent : Evento :=
  ⟨"dy", "t", "", "2024-01-01", true, Option.none, Option.none,
    some Recurrence.daily, Option.none⟩

/-- The group the aggregator produces for `farEvent` (computed value,
used to instantiate the amended window claim). -/
def farGroup : DayGroup :=
  ⟨"2031-01-01", [⟨farEvent, "2031-01-01"⟩]⟩

/-- The daily event's projected occurrence on 2024-01-08. -/
def jan8Proj : ProjEvento :=
  ⟨dailyEvent, "2024-01-08"⟩

/-- The aggregator's 2024-01-08 group for the weekly + daily run: the
weekly event is excepted that day, so only the daily occurrence remains. -/
def jan8Group : DayGroup :=
  ⟨"2024-01-08", [jan8Proj]⟩

/-! Helper lemmas about the occurrence predicate. -/

theorem parseISO_ne_empty {s : String} {dt : Date} (h : parseISO s = some dt) :
    s ≠ "" := by
  intro he
  subst he
  rw [show parseISO "" = Option.none from rfl] at h
  exact Option.noConfusion h

/-- Exception dates always suppress the event, whatever else holds. -/
theorem shouldShow_of_exception (e : Evento) (d : String)
    (h : hasException e d = true) : shouldShowOnDate e d = false := by
  simp [shouldShowOnDate, h]

/-- A target different from the origin string never occurs when the event
is non-recurring or its origin date fails to parse. -/
theorem shouldShow_ne_eq_false (e : Evento) (d : String) (hne : e.fecha ≠ d)
    (h : e.recurrence.getD Recurrence.none = Recurrence.none ∨
      parseISO e.fecha = Option.none) :
    shouldShowOnDate e d = false := by
  rcases h with h | h <;> simp [shouldShowOnDate, hne, h]

/-- Claim C1: for every event `e` and every date string `d` in
`e.exceptionDates`, `occursOn(e, d)` returns false, even when `d` equals
`e.originDate`; the exception check precedes the exact-match shortcut, so
an exception suppresses the event's own origin date. -/
theorem claim_C1 (e : Evento) (d : String) (h : hasException e d = true) :
    shouldShowOnDate e d = false :=
  shouldShow_of_exception e d h

/-- Witness for C1: the origin date 2024-01-05 of `exOriginEvent` is
listed in its exceptions and the predicate rejects it. -/
theorem claim_C1_witness :
    hasException exOriginEvent "2024-01-05" = true ∧
      exOriginEvent.fecha = "2024-01-05" ∧
      shouldShowOnDate exOriginEvent "2024-01-05" = false :=
  ⟨by decide, by decide, claim_C1 exOriginEvent "2024-01-05" (by decide)⟩

/-- Counterexample to C2 as stated: `corruptEvent.fecha = "banana"` does
not parse, yet the predicate answers true on the target string "banana"
itself, because the exact string match precedes parsing. -/
theorem claim_C2_counterexample :
    parseISO corruptEvent.fecha = Option.none ∧
      shouldShowOnDate corruptEvent "banana" = true := by
  constructor <;> decide

/-- Claim C2 (amended): for every event whose `originDate` string fails to
parse, `occursOn(event, d)` is false for every target date string `d`
other than the corrupt `originDate` string itself (on which the exact
string match still fires before parsing). -/
theorem claim_C2 (e : Evento) (d : String)
    (hcorrupt : parseISO e.fecha = Option.none) (hne : d ≠ e.fecha) :
    shouldShowOnDate e d = false :=
  shouldShow_ne_eq_false e d (fun h => hne h.symm) (Or.inr hcorrupt)

/-- Witness for C2: the corrupt-origin event occurs on no ordinary date. -/
theorem claim_C2_witness :
    parseISO corruptEvent.fecha = Option.none ∧
      ("2024-01-01" : String) ≠ corruptEvent.fecha ∧
      shouldShowOnDate corruptEvent "2024-01-01" = false :=
  ⟨by decide, by decide, claim_C2 corruptEvent "2024-01-01" (by decide) (by decide)⟩

/-- Counterexample to C3 as stated: `exOriginEvent` is non-recurring but
its origin date is listed among its exceptions, so the predicate answers
false on the origin date, not true. -/
theorem claim_C3_counterexample :
    exOriginEvent.recurrence.getD Recurrence.none = Recurrence.none ∧
      shouldShowOnDate exOriginEvent exOriginEvent.fecha = false := by
  constructor <;> decide

/-- Claim C3 (amended): a non-recurring event occurs on its origin date
provided the origin date is present and not itself listed as an exception,
and occurs on no other date unconditionally. -/
theorem claim_C3 (e : Evento)
    (hrec : e.recurrence.getD Recurrence.none = Recurrence.none) :
    (e.fecha ≠ "" → hasException e e.fecha = false →
      shouldShowOnDate e e.fecha = true) ∧
      (∀ d : String, d ≠ e.fecha → shouldShowOnDate e d = false) := by
  constructor
  · intro hne hex
    simp [shouldShowOnDate, hne, hex]
  · intro d hd
    exact shouldShow_ne_eq_false e d (fun h => hd h.symm) (Or.inl hrec)

/-- Witness for C3: a plain non-recurring event occurs exactly on its
origin date. -/
theorem claim_C3_witness :
    farEvent.recurrence.getD Recurrence.none = Recurrence.none ∧
      shouldShowOnDate farEvent farEvent.fecha = true ∧
      shouldShowOnDate farEvent "2031-01-02" = false := by
  refine ⟨by decide, ?_, ?_⟩
  · exact (claim_C3 farEvent (by decide)).1 (by decide) (by decide)
  · exact (claim_C3 farEvent (by decide)).2 "2031-01-02" (by decide)

/-- Evenness of an integer is exactly the source's `weeksDiff % 2 === 0`
test (JavaScript remainder is the truncating one). -/
theorem tmod_two_eq_zero_iff_even (n : Int) : n.tmod 2 = 0 ↔ Even n := by
  rw [← Int.dvd_iff_tmod_eq_zero]
  constructor
  · rintro ⟨k, hk⟩
    exact ⟨k, by omega⟩
  · rintro ⟨k, hk⟩
    exact ⟨k, by omega⟩

/-- Reduction of the predicate to its recurrence branch when all the
guards pass: the target differs from the origin string, is not excepted,
both dates parse, and the target is not before the origin. -/
theorem shouldShow_recur_reduce (e : Evento) (t : String) (od td : Date)
    (hst : e.fecha ≠ t) (hex : hasException e t = false)
    (ho : parseISO e.fecha = some od) (ht : parseISO t = some td)
    (hle : toDays od ≤ toDays td) :
    shouldShowOnDate e t =
      match e.recurrence.getD Recurrence.none with
      | Recurrence.none => false
      | Recurrence.daily => true
      | Recurrence.weekly => decide (getDay td = getDay od)
      | Recurrence.biweekly =>
        if getDay td ≠ getDay od then false
        else decide ((differenceInCalendarWeeks td od 1).tmod 2 = 0)
      | Recurrence.monthly => decide (getDate td = getDate od)
      | Recurrence.yearly =>
        decide (getDate td = getDate od ∧ getMonth td = getMonth od) := by
  have hf := parseISO_ne_empty ho
  have htn := parseISO_ne_empty ht
  have hlt : ¬ toDays td < toDays od := not_lt.mpr hle
  unfold shouldShowOnDate
  rw [if_neg (by simp [hf, htn]), if_neg (by simp [hex]), if_neg hst]
  cases hr : e.recurrence.getD Recurrence.none
  · simp [hr]
  all_goals simp [hr, ho, ht, hlt]

/-- Claim C6: for every biweekly event with a valid origin and every valid
target on or after the origin that is not excepted, the predicate is true
iff the weekdays agree and the number of Monday-starting calendar weeks
between origin and target is even; in particular, for origin 2024-01-01
(a Monday), 2024-01-08 is rejected (odd parity) and 2024-01-15 accepted
(even parity). -/
theorem claim_C6 :
    (∀ (e : Evento) (t : String) (od td : Date),
        e.recurrence.getD Recurrence.none = Recurrence.biweekly →
        parseISO e.fecha = some od → parseISO t = some td →
        hasException e t = false → toDays od ≤ toDays td →
        (shouldShowOnDate e t = true ↔
          (getDay td = getDay od ∧
            Even (differenceInCalendarWeeks td od 1)))) ∧
      shouldShowOnDate bwEvent "2024-01-08" = false ∧
      shouldShowOnDate bwEvent "2024-01-15" = true := by
  refine ⟨?_, by decide, by decide⟩
  intro e t od td hrec ho ht hex hle
  by_cases hst : e.fecha = t
  · have hodtd : od = td := by
      rw [hst, ht] at ho
      exact (Option.some.inj ho).symm
    subst hodtd
    refine iff_of_true ?_ ⟨rfl, ?_⟩
    · simp [shouldShowOnDate, parseISO_ne_empty ho, parseISO_ne_empty ht, hex, hst]
    · simp [differenceInCalendarWeeks, Int.sub_self]
  · rw [shouldShow_recur_reduce e t od td hst hex ho ht hle, hrec]
    by_cases hgd : getDay td = getDay od
    · simp [hgd, tmod_two_eq_zero_iff_even]
    · simp [hgd]

/-- Witness for C6: the generic equivalence instantiated on the biweekly
example event and the valid target 2024-01-15. -/
theorem claim_C6_witness :
    shouldShowOnDate bwEvent "2024-01-15" = true ↔
      (getDay ⟨2024, 1, 15⟩ = getDay ⟨2024, 1, 1⟩ ∧
        Even (differenceInCalendarWeeks ⟨2024, 1, 15⟩ ⟨2024, 1, 1⟩ 1)) :=
  claim_C6.1 bwEvent "2024-01-15" ⟨2024, 1, 1⟩ ⟨2024, 1, 15⟩
    (by decide) (by decide) (by decide) (by decide) (by decide)

/-- Claim C7: for every monthly event with a valid origin and every valid
target on or after the origin, not excepted and not the origin itself, the
predicate is true iff the days of month agree — no rollover, so a month
lacking the origin's day never matches; in particular, for origin
2024-01-31, 2024-02-29 is rejected and 2024-03-31 accepted. -/
theorem claim_C7 :
    (∀ (e : Evento) (t : String) (od td : Date),
        e.recurrence.getD Recurrence.none = Recurrence.monthly →
        parseISO e.fecha = some od → parseISO t = some td →
        hasException e t = false → toDays od ≤ toDays td → e.fecha ≠ t →
        (shouldShowOnDate e t = true ↔ getDate td = getDate od)) ∧
      shouldShowOnDate moEvent "2024-02-29" = false ∧
      shouldShowOnDate moEvent "2024-03-31" = true := by
  refine ⟨?_, by decide, by decide⟩
  intro e t od td hrec ho ht hex hle hst
  rw [shouldShow_recur_reduce e t od td hst hex ho ht hle, hrec]
  simp

/-- Witness for C7: the generic equivalence instantiated on the monthly
example event and the valid target 2024-03-31. -/
theorem claim_C7_witness :
    shouldShowOnDate moEvent "2024-03-31" = true ↔
      getDate ⟨2024, 3, 31⟩ = getDate ⟨2024, 1, 31⟩ :=
  claim_C7.1 moEvent "2024-03-31" ⟨2024, 1, 31⟩ ⟨2024, 3, 31⟩
    (by decide) (by decide) (by decide) (by decide) (by decide) (by decide)

/-- Claim C8: for every event collection and every date among the
`rangeLengthDays` consecutive dates starting at `rangeStart`, the marks
map holds that date iff the predicate accepts it for at least one event;
unmarked in-range dates have no occurrence. -/
theorem claim_C8 (events : List Evento) (rangeStart : Date)
    (rangeLengthDays : Nat) (i : Nat) (hi : i < rangeLengthDays) :
    fmtDate (addDays rangeStart (i : Int)) ∈
        eventMarks events rangeStart rangeLengthDays ↔
      ∃ e ∈ events, shouldShowOnDate e (fmtDate (addDays rangeStart (i : Int))) = true := by
  unfold eventMarks
  rw [List.mem_filter]
  constructor
  · intro h
    exact List.any_eq_true.mp h.2
  · intro h
    exact ⟨List.mem_map_of_mem (fun j : Nat => fmtDate (addDays rangeStart (j : Int)))
      (List.mem_range.mpr hi), List.any_eq_true.mpr h⟩

/-- Witness for C8: a three-day window around the daily event's origin
marks its second day, on which the event occurs. -/
theorem claim_C8_witness :
    (0 : Nat) < 3 ∧
      (fmtDate (addDays ⟨2024, 1, 1⟩ ((0 : Nat) : Int)) ∈
          eventMarks [dailyEvent] ⟨2024, 1, 1⟩ 3 ↔
        ∃ e ∈ [dailyEvent],
          shouldShowOnDate e (fmtDate (addDays ⟨2024, 1, 1⟩ ((0 : Nat) : Int))) = true) :=
  ⟨by decide, claim_C8 [dailyEvent] ⟨2024, 1, 1⟩ 3 0 (by decide)⟩

/-! Structural lemmas about the aggregator's sort-and-group pipeline. -/

/-- Flattening the date groups returns exactly the grouped list. -/
theorem groupByDate_flatten :
    ∀ l : List ProjEvento, (groupByDate l).flatMap DayGroup.events = l := by
  intro l
  induction l with
  | nil => rfl
  | cons p ps ih =>
    simp only [groupByDate]
    cases hg : groupByDate ps with
    | nil =>
      rw [hg] at ih
      simp only [List.flatMap_nil] at ih
      simp [← ih]
    | cons g gs =>
      rw [hg] at ih
      by_cases hdate : p.projectedDate = g.date
      · simp only [if_pos hdate, List.flatMap_cons] at ih ⊢
        simp [← ih]
      · simp only [if_neg hdate, List.flatMap_cons] at ih ⊢
        simp [← ih]

/-- Every member of a group is a member of the grouped list carrying the
group's date. -/
theorem groupByDate_mem :
    ∀ (l : List ProjEvento) (g : DayGroup), g ∈ groupByDate l →
      ∀ p ∈ g.events, p ∈ l ∧ p.projectedDate = g.date := by
  intro l
  induction l with
  | nil => intro g hg; cases hg
  | cons q qs ih =>
    intro g hg p hp
    cases hgs : groupByDate qs with
    | nil =>
      simp only [groupByDate, hgs, List.mem_singleton] at hg
      subst hg
      simp only [List.mem_singleton] at hp
      subst hp
      exact ⟨List.mem_cons_self _ _, rfl⟩
    | cons g0 gs0 =>
      simp only [groupByDate, hgs] at hg
      by_cases hdate : q.projectedDate = g0.date
      · rw [if_pos hdate] at hg
        rcases List.mem_cons.mp hg with rfl | hg'
        · rcases List.mem_cons.mp hp with rfl | hp'
          · exact ⟨List.mem_cons_self _ _, hdate⟩
          · have h0 := ih g0 (by rw [hgs]; exact List.mem_cons_self g0 gs0) p hp'
            exact ⟨List.mem_cons_of_mem _ h0.1, h0.2⟩
        · have h0 := ih g (by rw [hgs]; exact List.mem_cons_of_mem g0 hg') p hp
          exact ⟨List.mem_cons_of_mem _ h0.1, h0.2⟩
      · rw [if_neg hdate] at hg
        rcases List.mem_cons.mp hg with rfl | hg'
        · simp only [List.mem_singleton] at hp
          subst hp
          exact ⟨List.mem_cons_self _ _, rfl⟩
        · have h0 := ih g (by rw [hgs]; exact hg') p hp
          exact ⟨List.mem_cons_of_mem _ h0.1, h0.2⟩

/-- No group produced by the grouping loop is empty. -/
theorem groupByDate_nonempty :
    ∀ (l : List ProjEvento) (g : DayGroup), g ∈ groupByDate l →
      g.events ≠ [] := by
  intro l
  induction l with
  | nil => intro g hg; cases hg
  | cons q qs ih =>
    intro g hg
    cases hgs : groupByDate qs with
    | nil =>
      simp only [groupByDate, hgs, List.mem_singleton] at hg
      subst hg
      simp
    | cons g0 gs0 =>
      simp only [groupByDate, hgs] at hg
      by_cases hdate : q.projectedDate = g0.date
      · rw [if_pos hdate] at hg
        rcases List.mem_cons.mp hg with rfl | hg'
        · simp
        · exact ih g (by rw [hgs]; exact List.mem_cons_of_mem g0 hg')
      · rw [if_neg hdate] at hg
        rcases List.mem_cons.mp hg with rfl | hg'
        · simp
        · exact ih g (by rw [hgs]; exact hg')

/-- Every group of a non-empty grouping owes its date to some member of
the grouped list. -/
theorem groupByDate_date_mem (l : List ProjEvento) (g : DayGroup)
    (hg : g ∈ groupByDate l) : ∃ p ∈ l, p.projectedDate = g.date := by
  rcases hne : g.events with _ | ⟨p, ps⟩
  · exact absurd hne (groupByDate_nonempty l g hg)
  · have := groupByDate_mem l g hg p (hne ▸ List.mem_cons_self p ps)
    exact ⟨p, this.1, this.2⟩

/-- Characterisation of the projected occurrences: each comes either from
Paso A (a non-recurring event with a `fecha` strictly after today, never
consulting exceptions or the lookahead bound) or from Paso B (a recurring
event accepted by the predicate on one of the lookahead dates). -/
theorem mem_projectUpcoming {events : List Evento} {today : Date}
    {look : Nat} {p : ProjEvento} (hp : p ∈ projectUpcoming events today look) :
    (p.ev ∈ events ∧ p.ev.recurrence.getD Recurrence.none = Recurrence.none ∧
        p.projectedDate = p.ev.fecha ∧
        jsStrLt (fmtDate today) p.ev.fecha = true) ∨
      (∃ i : Nat, 1 ≤ i ∧ i ≤ look ∧
        p.projectedDate = fmtDate (addDays today (i : Int)) ∧ p.ev ∈ events ∧
        p.ev.recurrence.getD Recurrence.none ≠ Recurrence.none ∧
        shouldShowOnDate p.ev p.projectedDate = true) := by
  unfold projectUpcoming at hp
  rcases List.mem_append.mp hp with hA | hB
  · left
    obtain ⟨e, he, hpe⟩ := List.mem_map.mp hA
    obtain ⟨hmem, hpred⟩ := List.mem_filter.mp he
    obtain ⟨hrec, hfut⟩ := Bool.and_eq_true_iff.mp hpred
    subst hpe
    exact ⟨hmem, of_decide_eq_true hrec, rfl, hfut⟩
  · right
    obtain ⟨i, hi, hpi⟩ := List.mem_flatMap.mp hB
    obtain ⟨j, hj, hij⟩ := List.mem_range'.mp hi
    obtain ⟨e, he, hpe⟩ := List.mem_map.mp hpi
    obtain ⟨he2, hshow⟩ := List.mem_filter.mp he
    obtain ⟨hmem, hrec⟩ := List.mem_filter.mp he2
    subst hpe
    exact ⟨i, by omega, by omega, rfl, hmem, of_decide_eq_true hrec, hshow⟩

/-- Grouping a list whose dates are sorted by the comparator yields
strictly increasing group dates. -/
theorem groupByDate_dates_sorted :
    ∀ l : List ProjEvento, List.Pairwise projLe l →
      List.Pairwise (fun a b : String => jsStrLt a b = true)
        ((groupByDate l).map DayGroup.date) := by
  intro l
  induction l with
  | nil => simp [groupByDate]
  | cons q qs ih =>
    intro h
    rcases List.pairwise_cons.mp h with ⟨hq, hqs⟩
    have ihh := ih hqs
    cases hgs : groupByDate qs with
    | nil => simp [groupByDate, hgs]
    | cons g0 gs0 =>
      rw [hgs] at ihh
      simp only [groupByDate, hgs]
      by_cases hdate : q.projectedDate = g0.date
      · rw [if_pos hdate]
        simp only [List.map_cons] at ihh ⊢
        exact ihh
      · rw [if_neg hdate]
        have hqg0 : jsStrLt q.projectedDate g0.date = true := by
          obtain ⟨p0, hp0mem, hp0date⟩ :=
            groupByDate_date_mem qs g0 (by rw [hgs]; exact List.mem_cons_self _ _)
          rcases hq p0 hp0mem with hlt | ⟨heq, _⟩
          · rw [hp0date] at hlt
            exact hlt
          · rw [hp0date] at heq
            exact absurd heq hdate
        simp only [List.map_cons] at ihh ⊢
        refine List.pairwise_cons.mpr ⟨?_, ihh⟩
        intro x hx
        rcases List.mem_cons.mp hx with rfl | hxmem
        · exact hqg0
        · exact jsStrLt_trans hqg0 ((List.pairwise_cons.mp ihh).1 x hxmem)

/-- Counterexample to C4 as stated: a non-recurring event dated 2031-01-01
produces, for today = 2024-01-01 and a 30-day lookahead, a group dated
2031-01-01, strictly beyond today + 30 days (2024-01-31). -/
theorem claim_C4_counterexample :
    (upcomingEvents [farEvent] day0 30).map DayGroup.date = ["2031-01-01"] ∧
      jsStrLt (fmtDate (addDays day0 30)) "2031-01-01" = true := by
  constructor <;> decide

/-- Claim C4 (amended): every date group of the aggregator either carries
the `fecha` of a non-recurring event strictly after today — which Paso A
projects with no upper bound, so it may lie beyond the lookahead window —
or one of the dates `today + 1 … today + lookaheadDays` produced by the
recurring projection, which always lies inside the window. -/
theorem claim_C4 (events : List Evento) (today : Date) (look : Nat)
    (g : DayGroup) (hg : g ∈ upcomingEvents events today look) :
    (∃ e ∈ events, e.recurrence.getD Recurrence.none = Recurrence.none ∧
        g.date = e.fecha ∧ jsStrLt (fmtDate today) g.date = true) ∨
      (∃ i : Nat, 1 ≤ i ∧ i ≤ look ∧
        g.date = fmtDate (addDays today (i : Int))) := by
  obtain ⟨p, hpmem, hpdate⟩ := groupByDate_date_mem _ g hg
  rw [List.mem_insertionSort] at hpmem
  rcases mem_projectUpcoming hpmem with ⟨hmem, hrec, hdate, hlt⟩ |
    ⟨i, h1, h2, hdate, _, _, _⟩
  · refine Or.inl ⟨p.ev, hmem, hrec, ?_, ?_⟩
    · rw [← hpdate]
      exact hdate
    · rw [← hpdate, hdate]
      exact hlt
  · refine Or.inr ⟨i, h1, h2, ?_⟩
    rw [← hpdate]
    exact hdate

/-- Witness for C4: the far-future group of the counterexample run is
classified by the amended statement. -/
theorem claim_C4_witness :
    farGroup ∈ upcomingEvents [farEvent] day0 30 ∧
      ((∃ e ∈ [farEvent],
          e.recurrence.getD Recurrence.none = Recurrence.none ∧
          farGroup.date = e.fecha ∧
          jsStrLt (fmtDate day0) farGroup.date = true) ∨
        (∃ i : Nat, 1 ≤ i ∧ i ≤ 30 ∧
          farGroup.date = fmtDate (addDays day0 (i : Int)))) :=
  ⟨by decide, claim_C4 [farEvent] day0 30 farGroup (by decide)⟩

/-- Counterexample to C5 as stated: a non-recurring event whose future
`fecha` 2024-01-10 is listed in its own `exception_dates` is still pushed
by Paso A, so it appears in the group dated 2024-01-10. -/
theorem claim_C5_counterexample :
    hasException exFutureEvent "2024-01-10" = true ∧
      upcomingEvents [exFutureEvent] day0 30 =
        [⟨"2024-01-10", [⟨exFutureEvent, "2024-01-10"⟩]⟩] := by
  constructor <;> decide

/-- Claim C5 (amended): a recurring event never appears in a group whose
date is one of its exception dates — recurring projections go through the
predicate, which checks exceptions first; non-recurring events are
projected by Paso A without any exception check, so the guarantee does
not extend to them. -/
theorem claim_C5 (events : List Evento) (today : Date) (look : Nat)
    (e : Evento) (d : String) (g : DayGroup) (p : ProjEvento)
    (hrec : e.recurrence.getD Recurrence.none ≠ Recurrence.none)
    (hex : hasException e d = true)
    (hg : g ∈ upcomingEvents events today look) (hgd : g.date = d)
    (hp : p ∈ g.events) : p.ev ≠ e := by
  intro hpe
  have hmem := groupByDate_mem _ g hg p hp
  have hpmem := hmem.1
  have hpdate := hmem.2
  rw [List.mem_insertionSort] at hpmem
  rcases mem_projectUpcoming hpmem with ⟨_, hrec0, _, _⟩ | ⟨_, _, _, _, _, _, hshow⟩
  · rw [hpe] at hrec0
    exact hrec hrec0
  · rw [hpe, hpdate, hgd, shouldShow_of_exception e d hex] at hshow
    exact Bool.noConfusion hshow

/-- Witness for C5: with the weekly event (whose 2024-01-08 occurrence is
excepted) and the daily event, the 2024-01-08 group contains only the
daily event's occurrence, which the amended claim certifies is not the
weekly event. -/
theorem claim_C5_witness :
    wkEvent.recurrence.getD Recurrence.none ≠ Recurrence.none ∧
      hasException wkEvent "2024-01-08" = true ∧
      jan8Group ∈ upcomingEvents [wkEvent, dailyEvent] day0 30 ∧
      jan8Group.date = "2024-01-08" ∧
      jan8Proj ∈ jan8Group.events ∧
      jan8Proj.ev ≠ wkEvent :=
  ⟨by decide, by decide, by decide, by decide, by decide,
    claim_C5 [wkEvent, dailyEvent] day0 30 wkEvent "2024-01-08" jan8Group jan8Proj
      (by decide) (by decide) (by decide) (by decide) (by decide)⟩

/-- Claim C9: the flattened output of the aggregator is sorted ascending
by the pair (projected date, start time or empty string): group dates are
non-decreasing, and within a date, time-less occurrences (empty key)
precede timed ones, themselves in ascending HH:MM order. -/
theorem claim_C9 (events : List Evento) (today : Date) (look : Nat) :
    List.Pairwise
      (fun p q : ProjEvento =>
        jsStrLt p.projectedDate q.projectedDate = true ∨
          (p.projectedDate = q.projectedDate ∧
            jsStrLe (horaKey p) (horaKey q) = true))
      ((upcomingEvents events today look).flatMap DayGroup.events) := by
  unfold upcomingEvents
  rw [groupByDate_flatten]
  exact List.sorted_insertionSort projLe _

/-- Claim C10: every group of the aggregator output has a non-empty event
list, and the group dates are strictly increasing along the list (hence
pairwise distinct: each projected date forms at most one group). -/
theorem claim_C10 (events : List Evento) (today : Date) (look : Nat) :
    (∀ g ∈ upcomingEvents events today look, g.events ≠ []) ∧
      List.Pairwise (fun a b : String => jsStrLt a b = true)
        ((upcomingEvents events today look).map DayGroup.date) := by
  constructor
  · intro g hg
    exact groupByDate_nonempty _ g hg
  · exact groupByDate_dates_sorted _ (List.sorted_insertionSort projLe _)

/-- Witness for C10: the statement instantiated on a concrete two-event
run over a 30-day window. -/
theorem claim_C10_witness :
    (∀ g ∈ upcomingEvents [wkEvent, dailyEvent] day0 30, g.events ≠ []) ∧
      List.Pairwise (fun a b : String => jsStrLt a b = true)
        ((upcomingEvents [wkEvent, dailyEvent] day0 30).map DayGroup.date) :=
  claim_C10 [wkEvent, dailyEvent] day0 30

end CalendarApp
